import Mathlib

/-!
Verification of the triangle-assessment application (`src/main.py`).

The program is a single-session quiz tool: five random item generators,
an auto-grading handler over a response dictionary, a rubric-score
dictionary, and a roster loader.  This file shallowly embeds the parts
of the program the claims talk about:

* Python's process-wide random number generator is modelled as a finite
  tape of draws (`List Nat`).  Each primitive (`random.choice`,
  `random.randint`, `random.shuffle`, `random.sample`) consumes draws
  from the front of the tape; an index draw `k` selects element
  `k % n` from an `n`-element population, so every population element is
  reachable and every tape describes one possible run.  Rejection loops
  recurse on the remaining tape and return `none` when the tape is
  exhausted, so every terminating run of the Python loop corresponds to
  some tape on which the embedding returns `some`.
* Python dictionaries (`st.session_state.responses`,
  `st.session_state.rubric_scores`) are modelled as insertion-ordered
  association lists with unique keys; assignment `d[k] = v` replaces
  the value in place when the key is present and appends otherwise,
  exactly the observable behaviour of a Python `dict`.
-/

namespace TriangleApp

/-! ## Python `dict` model -/

section Dict

variable {K V : Type} [DecidableEq K]

/-- Python dictionary assignment `d[k] = v`: replace in place if the key is
present (keeping insertion order), append otherwise. -/
def dictSet : List (K × V) → K → V → List (K × V)
  | [], k, v => [(k, v)]
  | p :: rest, k, v =>
    if p.1 = k then (k, v) :: rest else p :: dictSet rest k v

/-- Python dictionary lookup `d.get(k)`. -/
def dictGet : List (K × V) → K → Option V
  | [], _ => none
  | p :: rest, k => if p.1 = k then some p.2 else dictGet rest k

/-- The keys of a dictionary, in insertion order. -/
def dictKeys (d : List (K × V)) : List K := d.map Prod.fst

/-- How many entries of the dictionary carry the key `k`. -/
def countKey (d : List (K × V)) (k : K) : Nat := (dictKeys d).count k

theorem dictGet_dictSet_self (d : List (K × V)) (k : K) (v : V) :
    dictGet (dictSet d k v) k = some v := by
  induction d with
  | nil => simp [dictSet, dictGet]
  | cons p rest ih =>
    by_cases h : p.1 = k <;> simp [dictSet, dictGet, h, ih]

theorem dictGet_dictSet_ne (d : List (K × V)) (k k' : K) (v : V) (h : k' ≠ k) :
    dictGet (dictSet d k v) k' = dictGet d k' := by
  have h' : ¬ k = k' := fun hh => h hh.symm
  induction d with
  | nil => simp [dictSet, dictGet, h']
  | cons p rest ih =>
    by_cases hp : p.1 = k
    · subst hp
      simp [dictSet, dictGet, h']
    · simp [dictSet, dictGet, hp, ih]

theorem dictKeys_dictSet (d : List (K × V)) (k : K) (v : V) :
    dictKeys (dictSet d k v) =
      if k ∈ dictKeys d then dictKeys d else dictKeys d ++ [k] := by
  induction d with
  | nil => simp [dictSet, dictKeys]
  | cons p rest ih =>
    by_cases h : p.1 = k
    · subst h
      simp [dictSet, dictKeys]
    · have hk : ¬ k = p.1 := fun hh => h hh.symm
      simp only [dictKeys] at ih ⊢
      simp only [dictSet, if_neg h, List.map_cons, List.mem_cons, hk, false_or]
      rw [ih]
      by_cases hm : k ∈ List.map Prod.fst rest <;> simp [hm]

theorem mem_dictKeys_dictSet (d : List (K × V)) (k k' : K) (v : V) :
    k' ∈ dictKeys (dictSet d k v) ↔ k' ∈ dictKeys d ∨ k' = k := by
  rw [dictKeys_dictSet]
  by_cases hm : k ∈ dictKeys d
  · simp only [hm, if_true]
    constructor
    · exact Or.inl
    · rintro (h | rfl)
      · exact h
      · exact hm
  · simp [hm]

theorem nodup_dictKeys_dictSet (d : List (K × V)) (k : K) (v : V)
    (h : (dictKeys d).Nodup) : (dictKeys (dictSet d k v)).Nodup := by
  rw [dictKeys_dictSet]
  by_cases hm : k ∈ dictKeys d
  · simpa [hm] using h
  · simp only [hm, if_false]
    simpa [List.nodup_append] using ⟨h, hm⟩

theorem count_dictKeys_dictSet (d : List (K × V)) (k : K) (v : V)
    (h : (dictKeys d).count k ≤ 1) : countKey (dictSet d k v) k = 1 := by
  unfold countKey
  rw [dictKeys_dictSet]
  by_cases hm : k ∈ dictKeys d
  · have h1 : 1 ≤ (dictKeys d).count k := List.one_le_count_iff.mpr hm
    simpa [hm] using Nat.le_antisymm h h1
  · have h0 : (dictKeys d).count k = 0 := List.count_eq_zero.mpr hm
    simp [hm, List.count_append, h0]

theorem dictSet_dictSet_self (d : List (K × V)) (k : K) (v v' : V) :
    dictSet (dictSet d k v) k v' = dictSet d k v' := by
  induction d with
  | nil => simp [dictSet]
  | cons p rest ih =>
    by_cases h : p.1 = k <;> simp [dictSet, h, ih]

theorem dictGet_eq_none_of_not_mem (d : List (K × V)) (k : K)
    (h : k ∉ dictKeys d) : dictGet d k = none := by
  induction d with
  | nil => simp [dictGet]
  | cons p rest ih =>
    simp only [dictKeys, List.map_cons, List.mem_cons] at h
    push_neg at h
    have hne : ¬ p.1 = k := fun hh => h.1 hh.symm
    simp [dictGet, hne, ih (by simpa [dictKeys] using h.2)]

/-- Two dictionaries with the same (duplicate-free) key sequence and the same
lookups are equal as association lists. -/
theorem dict_ext (d1 d2 : List (K × V)) (hk : dictKeys d1 = dictKeys d2)
    (hnd : (dictKeys d1).Nodup) (hg : ∀ k, dictGet d1 k = dictGet d2 k) :
    d1 = d2 := by
  induction d1 generalizing d2 with
  | nil =>
    cases d2 with
    | nil => rfl
    | cons q t2 => simp [dictKeys] at hk
  | cons p t1 ih =>
    cases d2 with
    | nil => simp [dictKeys] at hk
    | cons q t2 =>
      simp only [dictKeys, List.map_cons, List.cons.injEq] at hk
      obtain ⟨hk1, hk2⟩ := hk
      have hv : p.2 = q.2 := by
        have hgp := hg p.1
        simp [dictGet, hk1] at hgp
        exact hgp
      simp only [dictKeys, List.map_cons, List.nodup_cons] at hnd
      have ht : t1 = t2 := by
        refine ih t2 hk2 hnd.2 (fun k => ?_)
        by_cases h : k = p.1
        · subst h
          rw [dictGet_eq_none_of_not_mem t1 p.1 (by simpa [dictKeys] using hnd.1),
            dictGet_eq_none_of_not_mem t2 p.1
              (by simp only [dictKeys, ← hk2]; simpa [dictKeys] using hnd.1)]
        · have hgk := hg k
          have hnp : ¬ p.1 = k := fun hh => h hh.symm
          have hnq : ¬ q.1 = k := fun hh => h (hk1.symm ▸ hh).symm
          simpa [dictGet, hnp, hnq] using hgk
      obtain ⟨pa, pb⟩ := p
      obtain ⟨qa, qb⟩ := q
      simp only at hk1 hv
      rw [hk1, hv, ht]

end Dict

/-! ## Random primitives: swap, Fisher–Yates shuffle -/

section Shuffle

variable {α : Type} [DecidableEq α]

/-- Swap the elements at positions `i` and `j` (identity when either index is
out of range), as performed by one step of `random.shuffle`. -/
def listSwap (l : List α) (i j : Nat) : List α :=
  match l[i]?, l[j]? with
  | some x, some y => (l.set i y).set j x
  | _, _ => l

theorem count_set_add (l : List α) (i : Nat) (h : i < l.length) (y x : α) :
    (l.set i y).count x + (if l.get ⟨i, h⟩ = x then 1 else 0)
      = l.count x + (if y = x then 1 else 0) := by
  induction l generalizing i with
  | nil => simp at h
  | cons a t ih =>
    cases i with
    | zero =>
      simp only [List.set, List.count_cons, List.get]
      by_cases hy : y = x <;> by_cases ha : a = x <;> simp [hy, ha]
    | succ n =>
      have hn : n < t.length := by simpa using h
      have hih := ih n hn
      simp only [List.get_eq_getElem] at hih ⊢
      simp only [List.set, List.count_cons, List.getElem_cons_succ]
      by_cases ha : a = x <;> simp [ha] <;> omega

theorem listSwap_perm (l : List α) (i j : Nat) : (listSwap l i j).Perm l := by
  cases hi : l[i]? with
  | none =>
    have : listSwap l i j = l := by unfold listSwap; rw [hi]
    rw [this]
  | some x =>
    cases hj : l[j]? with
    | none =>
      have : listSwap l i j = l := by unfold listSwap; rw [hi, hj]
      rw [this]
    | some y =>
      have hswap : listSwap l i j = (l.set i y).set j x := by
        unfold listSwap; rw [hi, hj]
      obtain ⟨hil, hix⟩ := List.getElem?_eq_some_iff.mp hi
      obtain ⟨hjl, hjy⟩ := List.getElem?_eq_some_iff.mp hj
      rw [hswap, List.perm_iff_count]
      intro c
      have hjl' : j < (l.set i y).length := by simpa using hjl
      have h1 := count_set_add (l.set i y) j hjl' x c
      have h2 := count_set_add l i hil y c
      have hval : (l.set i y).get ⟨j, hjl'⟩ = y := by
        by_cases hij : i = j
        · subst hij
          simp [List.get_eq_getElem]
        · simp only [List.get_eq_getElem, List.getElem_set_ne hij]
          exact hjy
      rw [hval] at h1
      have hgi : l.get ⟨i, hil⟩ = x := by simpa [List.get_eq_getElem] using hix
      rw [hgi] at h2
      split_ifs at h1 h2 <;> omega

/-- The inner loop of CPython's `random.shuffle`: for `i` from `len - 1`
down to `1`, draw `j < i + 1` and swap positions `i` and `j`.  Returns
`none` when the draw tape is exhausted. -/
def pyShuffleAux : List α → Nat → List Nat → Option (List α × List Nat)
  | l, 0, tape => some (l, tape)
  | l, i + 1, k :: tape => pyShuffleAux (listSwap l (i + 1) (k % (i + 2))) i tape
  | _, _ + 1, [] => none

/-- `random.shuffle`, consuming `length - 1` draws from the tape. -/
def pyShuffle (l : List α) (tape : List Nat) : Option (List α × List Nat) :=
  pyShuffleAux l (l.length - 1) tape

theorem pyShuffleAux_perm (i : Nat) :
    ∀ (l l' : List α) (tape tape' : List Nat),
      pyShuffleAux l i tape = some (l', tape') → l'.Perm l := by
  induction i with
  | zero =>
    intro l l' tape tape' h
    simp only [pyShuffleAux, Option.some.injEq, Prod.mk.injEq] at h
    rw [h.1]
  | succ n ih =>
    intro l l' tape tape' h
    cases tape with
    | nil => simp [pyShuffleAux] at h
    | cons k rest =>
      simp only [pyShuffleAux] at h
      exact (ih _ l' rest tape' h).trans (listSwap_perm l (n + 1) (k % (n + 2)))

theorem pyShuffle_perm (l l' : List α) (tape tape' : List Nat)
    (h : pyShuffle l tape = some (l', tape')) : l'.Perm l :=
  pyShuffleAux_perm (l.length - 1) l l' tape tape' h

theorem pyShuffle_mem (l l' : List α) (tape tape' : List Nat) (a : α)
    (h : pyShuffle l tape = some (l', tape')) (ha : a ∈ l) : a ∈ l' :=
  (pyShuffle_perm l l' tape tape' h).mem_iff.mpr ha

theorem pyShuffle_length (l l' : List α) (tape tape' : List Nat)
    (h : pyShuffle l tape = some (l', tape')) : l'.length = l.length :=
  (pyShuffle_perm l l' tape tape' h).length_eq

end Shuffle

/-! ## Data model (`ObjItem`) and generator primitives -/

/-- An objective quiz item, mirroring the `ObjItem` dataclass.  All five
generators produce `kind = "MCQ"` items whose `answer` is a string. -/
structure ObjItem where
  id : String
  topic : String
  stem : String
  choices : List String
  answer : String
  kind : String
  points : Nat
  deriving DecidableEq, Repr

/-- Consume one draw from the RNG tape. -/
def draw : List Nat → Option (Nat × List Nat)
  | [] => none
  | k :: tape => some (k, tape)

/-- `random.choice(range(20, 121, 5))` in `gen_angle_sum_item`:
the population has 21 elements `20, 25, …, 120`. -/
def choiceAngle (k : Nat) : Int := 20 + 5 * ((k % 21 : Nat) : Int)

/-- The population `range(20, 121, 5)` sampled for the two given angles. -/
def angleRange : List Int :=
  (List.range 21).map (fun n : Nat => 20 + 5 * (n : Int))

theorem choiceAngle_mem (k : Nat) : choiceAngle k ∈ angleRange := by
  have hlt : k % 21 < 21 := Nat.mod_lt k (by decide)
  unfold choiceAngle angleRange
  exact List.mem_map_of_mem _ (List.mem_range.mpr hlt)

/-- The rejection loop of `gen_angle_sum_item`: draw `a` and `b` from
`range(20, 121, 5)` and repeat `while a + b >= 170`. -/
def sampleAnglePair : List Nat → Option ((Int × Int) × List Nat)
  | ka :: kb :: tape =>
    let a := choiceAngle ka
    let b := choiceAngle kb
    if 170 ≤ a + b then sampleAnglePair tape else some ((a, b), tape)
  | _ => none

/-- `gen_angle_sum_item`: two interior angles are drawn (re-sampling while
their sum reaches 170°), the answer is `str(180 - (a + b))`, the four
choices are shuffled. -/
def gen_angle_sum_item (tape : List Nat) : Option (ObjItem × List Nat) :=
  match sampleAnglePair tape with
  | none => none
  | some ((a, b), tape1) =>
    let c : Int := 180 - (a + b)
    let stem := "삼각형의 두 내각이 " ++ toString a ++ "°, " ++ toString b ++
      "°일 때, 나머지 각의 크기는?"
    match pyShuffle [toString c, toString (c + 5), toString (c - 5),
        toString (c + 10)] tape1 with
    | none => none
    | some (choices, tape2) =>
      some (⟨"AS-" ++ toString a ++ "-" ++ toString b, "triangle_angle_sum",
        stem, choices, toString c, "MCQ", 2⟩, tape2)

/-- `gen_exterior_angle_item`: `x` from `range(100, 160, 5)` (12 values),
`a` from `range(20, 70, 5)` (10 values), answer `str(x - a)`. -/
def gen_exterior_angle_item (tape : List Nat) : Option (ObjItem × List Nat) :=
  match tape with
  | kx :: ka :: tape1 =>
    let x : Int := 100 + 5 * ((kx % 12 : Nat) : Int)
    let a : Int := 20 + 5 * ((ka % 10 : Nat) : Int)
    let b := x - a
    let stem := "삼각형의 한 외각이 " ++ toString x ++
      "°이다. 원격 내각 중 하나가 " ++ toString a ++
      "°일 때, 다른 원격 내각의 크기는?"
    match pyShuffle [toString b, toString (b + 5), toString (b - 10),
        toString (b + 15)] tape1 with
    | none => none
    | some (choices, tape2) =>
      some (⟨"EX-" ++ toString x ++ "-" ++ toString a, "exterior_angle",
        stem, choices, toString b, "MCQ", 2⟩, tape2)
  | _ => none

/-- The population `range(3, 12)` from which `gen_triangle_types_item`
samples three side lengths without replacement. -/
def sideRange : List Nat := [3, 4, 5, 6, 7, 8, 9, 10, 11]

/-- `random.sample(range(3, 12), 3)`: three picks without replacement,
each draw indexing into the remaining pool. -/
def pick3 (k1 k2 k3 : Nat) : Option (Nat × Nat × Nat) :=
  let i1 := k1 % sideRange.length
  match sideRange[i1]? with
  | none => none
  | some x1 =>
    let pool1 := sideRange.eraseIdx i1
    let i2 := k2 % pool1.length
    match pool1[i2]? with
    | none => none
    | some x2 =>
      let pool2 := pool1.eraseIdx i2
      let i3 := k3 % pool2.length
      match pool2[i3]? with
      | none => none
      | some x3 => some (x1, x2, x3)

/-- `sorted([x, y, z])` for the three sampled side lengths. -/
def sort3 (x y z : Nat) : Nat × Nat × Nat :=
  if x ≤ y then
    if y ≤ z then (x, y, z)
    else if x ≤ z then (x, z, y) else (z, x, y)
  else
    if x ≤ z then (y, x, z)
    else if y ≤ z then (y, z, x) else (z, y, x)

/-- The side-length rejection loop of `gen_triangle_types_item`: sample and
sort three sides, repeating `while a + b <= c`. -/
def sampleSidesSorted : List Nat → Option ((Nat × Nat × Nat) × List Nat)
  | k1 :: k2 :: k3 :: tape =>
    match pick3 k1 k2 k3 with
    | none => none
    | some (x1, x2, x3) =>
      let s := sort3 x1 x2 x3
      if s.1 + s.2.1 ≤ s.2.2 then sampleSidesSorted tape else some (s, tape)
  | _ => none

/-- The population `[30, 45, 60, 70, 80, 90, 100, 120]` of the
angle-classification mode. -/
def anglesTT : List Nat := [30, 45, 60, 70, 80, 90, 100, 120]

/-- Shared tail of `gen_triangle_types_item`: shuffle the choices and build
the item with a random `TT-....` identifier. -/
def finishTT (stem : String) (baseChoices : List String) (answer : String)
    (tape : List Nat) : Option (ObjItem × List Nat) :=
  match pyShuffle baseChoices tape with
  | none => none
  | some (choices, tape1) =>
    match tape1 with
    | kid :: tape2 =>
      some (⟨"TT-" ++ toString (1000 + kid % 9000), "triangle_types", stem,
        choices, answer, "MCQ", 2⟩, tape2)
    | [] => none

/-- `gen_triangle_types_item`: classify a triangle either by three sampled
side lengths (rejection loop for the triangle inequality) or by a single
sampled angle. -/
def gen_triangle_types_item (tape : List Nat) : Option (ObjItem × List Nat) :=
  match tape with
  | km :: tape0 =>
    match (["sides", "angles"] : List String)[km % 2]? with
    | none => none
    | some mode =>
      if mode = "sides" then
        match sampleSidesSorted tape0 with
        | none => none
        | some ((a, b, c), tape1) =>
          let t := if a = b ∧ b = c then "정삼각형"
            else if a = b ∨ b = c then "이등변삼각형" else "부등변삼각형"
          let stem := "세 변의 길이가 " ++ toString a ++ ", " ++ toString b ++
            ", " ++ toString c ++ "인 삼각형의 분류는?"
          finishTT stem ["정삼각형", "이등변삼각형", "직각삼각형", "부등변삼각형"] t tape1
      else
        match tape0 with
        | kA :: tape1 =>
          match anglesTT[kA % 8]? with
          | none => none
          | some A =>
            let t := if A = 90 then "직각삼각형"
              else if 90 < A then "둔각삼각형" else "예각삼각형"
            let stem := "어떤 삼각형의 한 각이 " ++ toString A ++
              "°이다. 이 삼각형의 분류는?"
            finishTT stem ["예각삼각형", "직각삼각형", "둔각삼각형", "정삼각형"] t tape1
        | [] => none
  | [] => none

/-- Stem of the `SSS` pattern of `gen_congruence_item`. -/
def sssStem : String := "두 삼각형에서 대응하는 세 변의 길이가 각각 같다. 합동 판단 근거는?"

/-- Stem of the `SAS` pattern of `gen_congruence_item`. -/
def sasStem : String := "두 변의 길이와 그 끼인각이 각각 같다. 합동 판단 근거는?"

/-- Stem of the `ASA` pattern of `gen_congruence_item`: two angles and a
*non-included* side. -/
def asaStem : String := "두 각과 그 사이에 있지 않은 한 변이 각각 같다. 합동 판단 근거는?"

/-- Stem of the `AAS` pattern of `gen_congruence_item`: two angles and one
side, without saying where the side sits. -/
def aasStem : String := "두 각과 한 변이 각각 같다. 합동 판단 근거는?"

/-- `gen_congruence_item`: pick one of the first four criteria as the
question pattern; the `ASA` pattern's answer is hard-coded to `"AAS"`,
the `AAS` pattern's answer is a fresh random choice of `"ASA"`/`"AAS"`. -/
def gen_congruence_item (tape : List Nat) : Option (ObjItem × List Nat) :=
  match tape with
  | kp :: tape0 =>
    match (["SSS", "SAS", "ASA", "AAS"] : List String)[kp % 4]? with
    | none => none
    | some pattern =>
      match (if pattern = "SSS" then some ((sssStem, "SSS"), tape0)
        else if pattern = "SAS" then some ((sasStem, "SAS"), tape0)
        else if pattern = "ASA" then some ((asaStem, "AAS"), tape0)
        else
          match tape0 with
          | ka :: tape1 =>
            match (["ASA", "AAS"] : List String)[ka % 2]? with
            | none => none
            | some ans => some ((aasStem, ans), tape1)
          | [] => none) with
      | none => none
      | some ((stem, ans), tape1) =>
        match pyShuffle ["SSS", "SAS", "ASA", "AAS", "판단 불가"] tape1 with
        | none => none
        | some (choices, tape2) =>
          match tape2 with
          | kid :: tape3 =>
            some (⟨"CG-" ++ toString (1000 + kid % 9000), "congruence", stem,
              choices, ans, "MCQ", 2⟩, tape3)
          | [] => none
  | [] => none

/-- `gen_similarity_item`: two sampled angles, constant answer `가능(AA)`. -/
def gen_similarity_item (tape : List Nat) : Option (ObjItem × List Nat) :=
  match tape with
  | kA :: kB :: tape0 =>
    match ([30, 40, 50, 60] : List Nat)[kA % 4]?,
        ([40, 50, 60, 70] : List Nat)[kB % 4]? with
    | some A, some B =>
      let stem := "두 삼각형의 두 각이 각각 " ++ toString A ++ "°, " ++
        toString B ++ "°로 같다. 닮음 판단이 가능한가?"
      match pyShuffle ["가능(AA)", "불가능", "가능(SSS)", "가능(SAS)"] tape0 with
      | none => none
      | some (choices, tape1) =>
        some (⟨"SIM-" ++ toString A ++ "-" ++ toString B, "similarity_basic",
          stem, choices, "가능(AA)", "MCQ", 2⟩, tape1)
    | _, _ => none
  | _ => none

/-- The `GEN_FUNCS` dispatch table. -/
def runGen (tk : String) (tape : List Nat) : Option (ObjItem × List Nat) :=
  if tk = "triangle_angle_sum" then gen_angle_sum_item tape
  else if tk = "exterior_angle" then gen_exterior_angle_item tape
  else if tk = "triangle_types" then gen_triangle_types_item tape
  else if tk = "congruence" then gen_congruence_item tape
  else if tk = "similarity_basic" then gen_similarity_item tape
  else none

/-- The five topic keys, in `TOPICS` order. -/
def allTopicKeys : List String :=
  ["triangle_angle_sum", "exterior_angle", "triangle_types", "congruence",
    "similarity_basic"]

/-- The Generate-button loop: `n` times, pick a topic with `random.choice`
and run its generator. -/
def generateItems (topicKeys : List String) :
    Nat → List Nat → Option (List ObjItem × List Nat)
  | 0, tape => some ([], tape)
  | n + 1, tape =>
    match draw tape with
    | none => none
    | some (k, tape1) =>
      match topicKeys[k % topicKeys.length]? with
      | none => none
      | some tk =>
        match runGen tk tape1 with
        | none => none
        | some (item, tape2) =>
          match generateItems topicKeys n tape2 with
          | none => none
          | some (items, tape3) => some (item :: items, tape3)

/-! ## Generator specifications -/

theorem pyShuffle_ne_nil {α : Type} [DecidableEq α] (l l' : List α)
    (tape tape' : List Nat) (h : pyShuffle l tape = some (l', tape'))
    (hl : l ≠ []) : l' ≠ [] := by
  intro hnil
  apply hl
  have := pyShuffle_length l l' tape tape' h
  rw [hnil] at this
  exact List.length_eq_zero.mp this.symm

theorem sampleAnglePair_spec_aux (n : Nat) : ∀ (tape : List Nat),
    tape.length ≤ n → ∀ a b rest, sampleAnglePair tape = some ((a, b), rest) →
      a ∈ angleRange ∧ b ∈ angleRange ∧ a + b ≤ 169 := by
  induction n with
  | zero =>
    intro tape hlen a b rest h
    cases tape with
    | nil => simp [sampleAnglePair] at h
    | cons k t => simp at hlen
  | succ n ih =>
    intro tape hlen a b rest h
    match tape with
    | [] => simp [sampleAnglePair] at h
    | [k] => simp [sampleAnglePair] at h
    | ka :: kb :: t =>
      simp only [sampleAnglePair] at h
      by_cases hcond : (170 : Int) ≤ choiceAngle ka + choiceAngle kb
      · rw [if_pos hcond] at h
        refine ih t ?_ a b rest h
        simp only [List.length_cons] at hlen
        omega
      · rw [if_neg hcond] at h
        simp only [Option.some.injEq, Prod.mk.injEq] at h
        obtain ⟨⟨ha, hb⟩, _⟩ := h
        subst ha
        subst hb
        exact ⟨choiceAngle_mem ka, choiceAngle_mem kb, by omega⟩

theorem sampleAnglePair_spec (tape : List Nat) (a b : Int) (rest : List Nat)
    (h : sampleAnglePair tape = some ((a, b), rest)) :
    a ∈ angleRange ∧ b ∈ angleRange ∧ a + b ≤ 169 :=
  sampleAnglePair_spec_aux tape.length tape (Nat.le_refl _) a b rest h

theorem gen_angle_sum_item_spec (tape : List Nat) (item : ObjItem)
    (rest : List Nat) (h : gen_angle_sum_item tape = some (item, rest)) :
    ∃ a b tape1, sampleAnglePair tape = some ((a, b), tape1) ∧
      a ∈ angleRange ∧ b ∈ angleRange ∧ a + b ≤ 169 ∧
      item.answer = toString (180 - (a + b)) ∧
      item.answer ∈ item.choices ∧ item.choices ≠ [] ∧ item.kind = "MCQ" := by
  unfold gen_angle_sum_item at h
  cases hs : sampleAnglePair tape with
  | none => rw [hs] at h; exact absurd h (by simp)
  | some r =>
    obtain ⟨⟨a, b⟩, tape1⟩ := r
    rw [hs] at h
    simp only at h
    cases hsh : pyShuffle [toString (180 - (a + b)),
        toString (180 - (a + b) + 5), toString (180 - (a + b) - 5),
        toString (180 - (a + b) + 10)] tape1 with
    | none => rw [hsh] at h; exact absurd h (by simp)
    | some s =>
      obtain ⟨choices, tape2⟩ := s
      rw [hsh] at h
      simp only [Option.some.injEq, Prod.mk.injEq] at h
      obtain ⟨hitem, -⟩ := h
      obtain ⟨hmem, hmem2, hmem3⟩ := sampleAnglePair_spec tape a b tape1 hs
      subst hitem
      refine ⟨a, b, tape1, rfl, hmem, hmem2, hmem3, rfl, ?_, ?_, rfl⟩
      · exact pyShuffle_mem _ _ _ _ _ hsh (by simp)
      · exact pyShuffle_ne_nil _ _ _ _ hsh (by simp)

theorem gen_exterior_angle_item_choices (tape : List Nat) (item : ObjItem)
    (rest : List Nat) (h : gen_exterior_angle_item tape = some (item, rest)) :
    item.answer ∈ item.choices ∧ item.choices ≠ [] := by
  match tape with
  | [] => simp [gen_exterior_angle_item] at h
  | [k] => simp [gen_exterior_angle_item] at h
  | kx :: ka :: tape1 =>
    simp only [gen_exterior_angle_item] at h
    split at h
    · exact absurd h (by simp)
    · rename_i choices tape2 hsh
      simp only [Option.some.injEq, Prod.mk.injEq] at h
      obtain ⟨hitem, -⟩ := h
      subst hitem
      exact ⟨pyShuffle_mem _ _ _ _ _ hsh (by simp),
        pyShuffle_ne_nil _ _ _ _ hsh (by simp)⟩

theorem gen_similarity_item_spec (tape : List Nat) (item : ObjItem)
    (rest : List Nat) (h : gen_similarity_item tape = some (item, rest)) :
    item.answer = "가능(AA)" ∧ item.answer ∈ item.choices ∧
      item.choices ≠ [] := by
  match tape with
  | [] => simp [gen_similarity_item] at h
  | [k] => simp [gen_similarity_item] at h
  | kA :: kB :: tape0 =>
    simp only [gen_similarity_item] at h
    split at h
    · rename_i A B hA hB
      split at h
      · exact absurd h (by simp)
      · rename_i choices tape1 hsh
        simp only [Option.some.injEq, Prod.mk.injEq] at h
        obtain ⟨hitem, -⟩ := h
        subst hitem
        refine ⟨rfl, ?_, ?_⟩
        · exact pyShuffle_mem _ _ _ _ _ hsh (by simp)
        · exact pyShuffle_ne_nil _ _ _ _ hsh (by simp)
    · exact absurd h (by simp)

theorem gen_congruence_item_spec (tape : List Nat) (item : ObjItem)
    (rest : List Nat) (h : gen_congruence_item tape = some (item, rest)) :
    item.answer ∈ item.choices ∧ item.choices ≠ [] ∧
      (item.stem = asaStem → item.answer = "AAS") ∧
      (item.stem = aasStem → item.answer = "ASA" ∨ item.answer = "AAS") := by
  match tape with
  | [] => simp [gen_congruence_item] at h
  | kp :: tape0 =>
    simp only [gen_congruence_item] at h
    split at h
    · exact absurd h (by simp)
    · rename_i pattern hp
      split at h
      · exact absurd h (by simp)
      · rename_i r stem ans tape1 hifeq
        have hcase : stem = sssStem ∧ ans = "SSS" ∨
            stem = sasStem ∧ ans = "SAS" ∨ stem = asaStem ∧ ans = "AAS" ∨
            stem = aasStem ∧ (ans = "ASA" ∨ ans = "AAS") := by
          have hpm : pattern = "SSS" ∨ pattern = "SAS" ∨ pattern = "ASA" ∨
              pattern = "AAS" := by
            have hmem := List.getElem?_mem hp
            simpa using hmem
          rcases hpm with rfl | rfl | rfl | rfl
          · simp at hifeq
            exact Or.inl ⟨hifeq.1.1.symm, hifeq.1.2.symm⟩
          · simp at hifeq
            exact Or.inr (Or.inl ⟨hifeq.1.1.symm, hifeq.1.2.symm⟩)
          · simp at hifeq
            exact Or.inr (Or.inr (Or.inl ⟨hifeq.1.1.symm, hifeq.1.2.symm⟩))
          · simp only [show ¬ ("AAS" : String) = "SSS" from by decide,
              show ¬ ("AAS" : String) = "SAS" from by decide,
              show ¬ ("AAS" : String) = "ASA" from by decide,
              if_false, if_neg] at hifeq
            split at hifeq
            · rename_i ka tape2
              split at hifeq
              · exact absurd hifeq (by simp)
              · rename_i a ha
                have ham : a = "ASA" ∨ a = "AAS" := by
                  have hmem := List.getElem?_mem ha
                  simpa using hmem
                simp only [Option.some.injEq, Prod.mk.injEq] at hifeq
                refine Or.inr (Or.inr (Or.inr ⟨hifeq.1.1.symm, ?_⟩))
                rcases ham with rfl | rfl
                · exact Or.inl hifeq.1.2.symm
                · exact Or.inr hifeq.1.2.symm
            · exact absurd hifeq (by simp)
        split at h
        · exact absurd h (by simp)
        · rename_i s2 choices tape2 hsh
          split at h
          · rename_i kid tape3
            simp only [Option.some.injEq, Prod.mk.injEq] at h
            obtain ⟨hitem, -⟩ := h
            subst hitem
            have hans : ans ∈ (["SSS", "SAS", "ASA", "AAS", "판단 불가"] :
                List String) := by
              rcases hcase with ⟨-, rfl⟩ | ⟨-, rfl⟩ | ⟨-, rfl⟩ |
                ⟨-, rfl | rfl⟩ <;> simp
            refine ⟨pyShuffle_mem _ _ _ _ _ hsh hans,
              pyShuffle_ne_nil _ _ _ _ hsh (by simp), ?_, ?_⟩
            · intro hst
              rcases hcase with ⟨rfl, -⟩ | ⟨rfl, -⟩ | ⟨-, rfl⟩ | ⟨rfl, -⟩
              · exact absurd hst (show ¬ sssStem = asaStem by decide)
              · exact absurd hst (show ¬ sasStem = asaStem by decide)
              · rfl
              · exact absurd hst (show ¬ aasStem = asaStem by decide)
            · intro hst
              rcases hcase with ⟨rfl, -⟩ | ⟨rfl, -⟩ | ⟨rfl, -⟩ | ⟨-, hv⟩
              · exact absurd hst (show ¬ sssStem = aasStem by decide)
              · exact absurd hst (show ¬ sasStem = aasStem by decide)
              · exact absurd hst (show ¬ asaStem = aasStem by decide)
              · simpa using hv
          · exact absurd h (by simp)

theorem cons_eraseIdx_perm {α : Type} (l : List α) (i : Nat) (x : α)
    (h : l[i]? = some x) : l.Perm (x :: l.eraseIdx i) := by
  induction l generalizing i with
  | nil => simp at h
  | cons a t ih =>
    cases i with
    | zero =>
      simp only [List.getElem?_cons_zero, Option.some.injEq] at h
      subst h
      simp [List.eraseIdx]
    | succ n =>
      simp only [List.getElem?_cons_succ] at h
      have hp := ih n h
      simp only [List.eraseIdx_cons_succ]
      exact List.Perm.trans (hp.cons a) (List.Perm.swap x a (t.eraseIdx n))

theorem pick3_distinct (k1 k2 k3 : Nat) (x1 x2 x3 : Nat)
    (h : pick3 k1 k2 k3 = some (x1, x2, x3)) :
    x1 ≠ x2 ∧ x1 ≠ x3 ∧ x2 ≠ x3 := by
  simp only [pick3] at h
  split at h
  · exact absurd h (by simp)
  · rename_i y1 h1
    split at h
    · exact absurd h (by simp)
    · rename_i y2 h2
      split at h
      · exact absurd h (by simp)
      · rename_i y3 h3
        simp only [Option.some.injEq, Prod.mk.injEq] at h
        obtain ⟨rfl, rfl, rfl⟩ := h
        have hnd : sideRange.Nodup := by decide
        have hperm1 := cons_eraseIdx_perm sideRange
          (k1 % sideRange.length) y1 h1
        have hnd1 : y1 ∉ sideRange.eraseIdx (k1 % sideRange.length) ∧
            (sideRange.eraseIdx (k1 % sideRange.length)).Nodup := by
          have := hperm1.nodup_iff.mp hnd
          simpa [List.nodup_cons] using this
        have hperm2 := cons_eraseIdx_perm
          (sideRange.eraseIdx (k1 % sideRange.length))
          (k2 % (sideRange.eraseIdx (k1 % sideRange.length)).length) y2 h2
        have hnd2 : y2 ∉ ((sideRange.eraseIdx (k1 % sideRange.length)).eraseIdx
              (k2 % (sideRange.eraseIdx (k1 % sideRange.length)).length)) ∧
            ((sideRange.eraseIdx (k1 % sideRange.length)).eraseIdx
              (k2 % (sideRange.eraseIdx
                (k1 % sideRange.length)).length)).Nodup := by
          have := hperm2.nodup_iff.mp hnd1.2
          simpa [List.nodup_cons] using this
        have hy2mem : y2 ∈ sideRange.eraseIdx (k1 % sideRange.length) :=
          List.getElem?_mem h2
        have hy3mem2 : y3 ∈ (sideRange.eraseIdx
            (k1 % sideRange.length)).eraseIdx
            (k2 % (sideRange.eraseIdx (k1 % sideRange.length)).length) :=
          List.getElem?_mem h3
        have hy3mem1 : y3 ∈ sideRange.eraseIdx (k1 % sideRange.length) :=
          hperm2.mem_iff.mpr (List.mem_cons_of_mem _ hy3mem2)
        refine ⟨?_, ?_, ?_⟩
        · intro heq
          exact hnd1.1 (heq ▸ hy2mem)
        · intro heq
          exact hnd1.1 (heq ▸ hy3mem1)
        · intro heq
          exact hnd2.1 (heq ▸ hy3mem2)

theorem sort3_strict (x y z : Nat) (hxy : x ≠ y) (hxz : x ≠ z) (hyz : y ≠ z) :
    (sort3 x y z).1 < (sort3 x y z).2.1 ∧
      (sort3 x y z).2.1 < (sort3 x y z).2.2 := by
  unfold sort3
  split_ifs <;> simp <;> omega

theorem sampleSidesSorted_spec_aux (n : Nat) : ∀ (tape : List Nat),
    tape.length ≤ n → ∀ a b c rest,
      sampleSidesSorted tape = some ((a, b, c), rest) →
        a < b ∧ b < c ∧ c < a + b := by
  induction n with
  | zero =>
    intro tape hlen a b c rest h
    cases tape with
    | nil => simp [sampleSidesSorted] at h
    | cons k t => simp at hlen
  | succ n ih =>
    intro tape hlen a b c rest h
    match tape with
    | [] => simp [sampleSidesSorted] at h
    | [k] => simp [sampleSidesSorted] at h
    | [k1, k2] => simp [sampleSidesSorted] at h
    | k1 :: k2 :: k3 :: t =>
      simp only [sampleSidesSorted] at h
      split at h
      · exact absurd h (by simp)
      · rename_i r x1 x2 x3 hpick
        by_cases hcond : (sort3 x1 x2 x3).1 + (sort3 x1 x2 x3).2.1 ≤
            (sort3 x1 x2 x3).2.2
        · rw [if_pos hcond] at h
          refine ih t ?_ a b c rest h
          simp only [List.length_cons] at hlen
          omega
        · rw [if_neg hcond] at h
          simp only [Option.some.injEq, Prod.mk.injEq] at h
          obtain ⟨hs, -⟩ := h
          obtain ⟨hd1, hd2, hd3⟩ := pick3_distinct k1 k2 k3 x1 x2 x3 hpick
          have hstrict := sort3_strict x1 x2 x3 hd1 hd2 hd3
          rw [hs] at hstrict hcond
          simp only at hstrict hcond
          exact ⟨hstrict.1, hstrict.2, by omega⟩

theorem sampleSidesSorted_spec (tape : List Nat) (a b c : Nat)
    (rest : List Nat) (h : sampleSidesSorted tape = some ((a, b, c), rest)) :
    a < b ∧ b < c ∧ c < a + b :=
  sampleSidesSorted_spec_aux tape.length tape (Nat.le_refl _) a b c rest h

theorem finishTT_spec (stem : String) (baseChoices : List String)
    (answer : String) (tape : List Nat) (item : ObjItem) (rest : List Nat)
    (h : finishTT stem baseChoices answer tape = some (item, rest))
    (hmem : answer ∈ baseChoices) :
    item.answer = answer ∧ item.stem = stem ∧ item.answer ∈ item.choices ∧
      item.choices ≠ [] := by
  unfold finishTT at h
  split at h
  · exact absurd h (by simp)
  · rename_i s choices tape1 hsh
    split at h
    · rename_i kid tape2
      simp only [Option.some.injEq, Prod.mk.injEq] at h
      obtain ⟨hitem, -⟩ := h
      subst hitem
      refine ⟨rfl, rfl, ?_, ?_⟩
      · exact pyShuffle_mem _ _ _ _ _ hsh hmem
      · exact pyShuffle_ne_nil _ _ _ _ hsh (List.ne_nil_of_mem hmem)
    · exact absurd h (by simp)

theorem gen_triangle_types_item_choices (tape : List Nat) (item : ObjItem)
    (rest : List Nat) (h : gen_triangle_types_item tape = some (item, rest)) :
    item.answer ∈ item.choices ∧ item.choices ≠ [] := by
  match tape with
  | [] => simp [gen_triangle_types_item] at h
  | km :: tape0 =>
    simp only [gen_triangle_types_item] at h
    split at h
    · exact absurd h (by simp)
    · rename_i mode hmode
      by_cases hm : mode = "sides"
      · rw [if_pos hm] at h
        split at h
        · exact absurd h (by simp)
        · rename_i r a b c tape1 hss
          have hf := finishTT_spec _ _ _ _ _ _ h (by split_ifs <;> simp)
          exact ⟨hf.2.2.1, hf.2.2.2⟩
      · rw [if_neg hm] at h
        match tape0 with
        | [] => simp at h
        | kA :: tape1 =>
          simp only at h
          split at h
          · exact absurd h (by simp)
          · rename_i A hA
            have hf := finishTT_spec _ _ _ _ _ _ h (by split_ifs <;> simp)
            exact ⟨hf.2.2.1, hf.2.2.2⟩

theorem gen_triangle_types_sides_answer (km : Nat) (tape : List Nat)
    (item : ObjItem) (rest : List Nat) (hkm : km % 2 = 0)
    (h : gen_triangle_types_item (km :: tape) = some (item, rest)) :
    item.answer = "부등변삼각형" := by
  simp only [gen_triangle_types_item, hkm] at h
  simp only [show ((["sides", "angles"] : List String)[0]? = some "sides")
    from rfl] at h
  simp only [show (("sides" : String) = "sides") = True from by simp,
    if_true] at h
  split at h
  · exact absurd h (by simp)
  · rename_i r a b c tape1 hss
    obtain ⟨hab, hbc, -⟩ := sampleSidesSorted_spec tape a b c tape1 hss
    have hne1 : ¬ (a = b ∧ b = c) := by omega
    have hne2 : ¬ (a = b ∨ b = c) := by omega
    rw [if_neg hne1, if_neg hne2] at h
    exact (finishTT_spec _ _ _ _ _ _ h (by simp)).1

theorem runGen_choices (tk : String) (tape : List Nat) (item : ObjItem)
    (rest : List Nat) (h : runGen tk tape = some (item, rest)) :
    item.answer ∈ item.choices ∧ item.choices ≠ [] := by
  unfold runGen at h
  split_ifs at h
  · obtain ⟨a, b, t1, -, -, -, -, -, hm, hn, -⟩ :=
      gen_angle_sum_item_spec tape item rest h
    exact ⟨hm, hn⟩
  · exact gen_exterior_angle_item_choices tape item rest h
  · exact gen_triangle_types_item_choices tape item rest h
  · obtain ⟨hm, hn, -, -⟩ := gen_congruence_item_spec tape item rest h
    exact ⟨hm, hn⟩
  · obtain ⟨-, hm, hn⟩ := gen_similarity_item_spec tape item rest h
    exact ⟨hm, hn⟩

theorem generateItems_spec (topicKeys : List String) (n : Nat) :
    ∀ tape items rest, generateItems topicKeys n tape = some (items, rest) →
      items.length = n ∧ ∀ item ∈ items,
        item.answer ∈ item.choices ∧ item.choices ≠ [] := by
  induction n with
  | zero =>
    intro tape items rest h
    simp only [generateItems, Option.some.injEq, Prod.mk.injEq] at h
    obtain ⟨rfl, -⟩ : items = [] ∧ rest = tape := ⟨h.1.symm, h.2.symm⟩
    simp
  | succ n ih =>
    intro tape items rest h
    simp only [generateItems] at h
    split at h
    · exact absurd h (by simp)
    · rename_i d k tape1 hd
      split at h
      · exact absurd h (by simp)
      · rename_i tk htk
        split at h
        · exact absurd h (by simp)
        · rename_i r item1 tape2 hrg
          split at h
          · exact absurd h (by simp)
          · rename_i r2 items1 tape3 hrec
            simp only [Option.some.injEq, Prod.mk.injEq] at h
            obtain ⟨hitems, -⟩ := h
            subst hitems
            obtain ⟨hlen, hall⟩ := ih tape2 items1 tape3 hrec
            refine ⟨by simp [hlen], ?_⟩
            intro item hmem
            rcases List.mem_cons.mp hmem with rfl | hmem1
            · exact runGen_choices tk tape1 item tape2 hrg
            · exact hall item hmem1

/-! ## Auto-grading (the Auto-grade button handler) -/

/-- A response record, mirroring the dictionary stored at
`st.session_state.responses[(sid, item.id)]`. -/
structure RespRec where
  response : Option String
  correct : Bool
  score : Nat
  answer : String
  topic : String
  deriving DecidableEq, Repr

/-- The `st.session_state.responses` dictionary. -/
def RespStore : Type := List ((String × String) × RespRec)

/-- Python `str(...)` applied to an optional widget value:
`str(None) = "None"`. -/
def pyStrOpt : Option String → String
  | none => "None"
  | some s => s

/-- The record the grading loop computes for one item: the widget value at
key `resp_{item.id}`, the string-equality correctness flag, and the score. -/
def gradeRecord (w : String → Option String) (item : ObjItem) : RespRec :=
  let resp := w ("resp_" ++ item.id)
  let correct := pyStrOpt resp = item.answer
  let score := if correct then item.points else 0
  ⟨resp, decide correct, score, item.answer, item.topic⟩

/-- The grading loop: accumulate `total` and `max_total` and overwrite the
response record for each item, in item order. -/
def autoGrade (w : String → Option String) (sid : String) :
    List ObjItem → Nat × Nat × RespStore → Nat × Nat × RespStore
  | [], acc => acc
  | item :: restItems, (total, maxTotal, store) =>
    let r := gradeRecord w item
    autoGrade w sid restItems
      (total + r.score, maxTotal + item.points, dictSet store (sid, item.id) r)

/-- The Auto-grade button handler: run the loop with both accumulators
starting at 0 on the current response store. -/
def autoGradeHandler (items : List ObjItem) (w : String → Option String)
    (sid : String) (store : RespStore) : Nat × Nat × RespStore :=
  autoGrade w sid items (0, 0, store)

/-- The sum of the point values of a list of items. -/
def sumPoints (items : List ObjItem) : Nat :=
  (items.map (fun it => it.points)).sum

/-- The sequence of dictionary writes performed by one grading run. -/
def writeList (w : String → Option String) (sid : String)
    (items : List ObjItem) : List ((String × String) × RespRec) :=
  items.map (fun item => ((sid, item.id), gradeRecord w item))

/-- Apply a sequence of dictionary writes in order. -/
def applyWrites {V : Type} (s : List ((String × String) × V))
    (ws : List ((String × String) × V)) : List ((String × String) × V) :=
  ws.foldl (fun d p => dictSet d p.1 p.2) s

theorem autoGrade_decompose (w : String → Option String) (sid : String) :
    ∀ (items : List ObjItem) (t m : Nat) (s : RespStore),
      autoGrade w sid items (t, m, s) =
        (t + (items.map (fun it => (gradeRecord w it).score)).sum,
         m + sumPoints items, applyWrites s (writeList w sid items)) := by
  intro items
  induction items with
  | nil => intro t m s; simp [autoGrade, sumPoints, applyWrites, writeList]
  | cons item restItems ih =>
    intro t m s
    simp only [autoGrade, ih, List.map_cons, List.sum_cons, sumPoints,
      writeList, applyWrites, List.foldl_cons]
    simp only [Prod.mk.injEq]
    exact ⟨by omega, by omega, trivial⟩

theorem mem_dictKeys_applyWrites {V : Type} (ws : List ((String × String) × V)) :
    ∀ (s : List ((String × String) × V)) (k : String × String),
      k ∈ dictKeys (applyWrites s ws) ↔
        k ∈ dictKeys s ∨ k ∈ ws.map Prod.fst := by
  induction ws with
  | nil => intro s k; simp [applyWrites]
  | cons p rest ih =>
    intro s k
    simp only [applyWrites, List.foldl_cons, List.map_cons, List.mem_cons]
    rw [show List.foldl (fun d q => dictSet d q.1 q.2)
      (dictSet s p.1 p.2) rest = applyWrites (dictSet s p.1 p.2) rest from rfl]
    rw [ih (dictSet s p.1 p.2) k, mem_dictKeys_dictSet]
    tauto

theorem dictKeys_applyWrites_of_mem {V : Type}
    (ws : List ((String × String) × V)) :
    ∀ (s : List ((String × String) × V)),
      (∀ p ∈ ws, p.1 ∈ dictKeys s) →
      dictKeys (applyWrites s ws) = dictKeys s := by
  induction ws with
  | nil => intro s _; rfl
  | cons p rest ih =>
    intro s hws
    have hp : p.1 ∈ dictKeys s := hws p (List.mem_cons_self p rest)
    have hkeys : dictKeys (dictSet s p.1 p.2) = dictKeys s := by
      rw [dictKeys_dictSet, if_pos hp]
    simp only [applyWrites, List.foldl_cons]
    rw [show List.foldl (fun d q => dictSet d q.1 q.2)
      (dictSet s p.1 p.2) rest = applyWrites (dictSet s p.1 p.2) rest from rfl]
    rw [ih (dictSet s p.1 p.2) (fun q hq => by
      rw [hkeys]; exact hws q (List.mem_cons_of_mem p hq)), hkeys]

theorem nodup_dictKeys_applyWrites {V : Type}
    (ws : List ((String × String) × V)) :
    ∀ (s : List ((String × String) × V)), (dictKeys s).Nodup →
      (dictKeys (applyWrites s ws)).Nodup := by
  induction ws with
  | nil => intro s h; exact h
  | cons p rest ih =>
    intro s h
    simp only [applyWrites, List.foldl_cons]
    exact ih (dictSet s p.1 p.2) (nodup_dictKeys_dictSet s p.1 p.2 h)

/-- The value of the last write to key `k` in a write sequence, if any. -/
def lastWrite {V : Type} :
    List ((String × String) × V) → (String × String) → Option V
  | [], _ => none
  | p :: rest, k =>
    match lastWrite rest k with
    | some v => some v
    | none => if p.1 = k then some p.2 else none

theorem dictGet_applyWrites {V : Type} (ws : List ((String × String) × V)) :
    ∀ (s : List ((String × String) × V)) (k : String × String),
      dictGet (applyWrites s ws) k =
        match lastWrite ws k with
        | some v => some v
        | none => dictGet s k := by
  induction ws with
  | nil => intro s k; rfl
  | cons p rest ih =>
    intro s k
    simp only [applyWrites, List.foldl_cons, lastWrite]
    rw [show List.foldl (fun d q => dictSet d q.1 q.2)
      (dictSet s p.1 p.2) rest = applyWrites (dictSet s p.1 p.2) rest from rfl]
    rw [ih (dictSet s p.1 p.2) k]
    cases hlw : lastWrite rest k with
    | some v => rfl
    | none =>
      simp only
      by_cases hpk : p.1 = k
      · subst hpk
        rw [if_pos rfl, dictGet_dictSet_self]
      · rw [if_neg hpk, dictGet_dictSet_ne s p.1 k p.2
          (fun hh => hpk hh.symm)]

theorem lastWrite_mem_keys {V : Type}
    (ws : List ((String × String) × V)) (k : String × String) (v : V)
    (h : lastWrite ws k = some v) : k ∈ ws.map Prod.fst := by
  induction ws with
  | nil => simp [lastWrite] at h
  | cons p rest ih =>
    simp only [lastWrite] at h
    simp only [List.map_cons, List.mem_cons]
    cases hlw : lastWrite rest k with
    | some v' => exact Or.inr (ih (by rw [hlw] at h ⊢; exact h ▸ rfl))
    | none =>
      rw [hlw] at h
      simp only at h
      by_cases hpk : p.1 = k
      · exact Or.inl hpk.symm
      · rw [if_neg hpk] at h
        exact absurd h (by simp)

theorem mem_keys_lastWrite {V : Type}
    (ws : List ((String × String) × V)) (k : String × String)
    (h : k ∈ ws.map Prod.fst) : ∃ v, lastWrite ws k = some v := by
  induction ws with
  | nil => simp at h
  | cons p rest ih =>
    simp only [List.map_cons, List.mem_cons] at h
    simp only [lastWrite]
    cases hlw : lastWrite rest k with
    | some v => exact ⟨v, rfl⟩
    | none =>
      rcases h with hk | hmem
      · exact ⟨p.2, by simp [hk.symm]⟩
      · obtain ⟨v, hv⟩ := ih hmem
        rw [hv] at hlw
        exact absurd hlw (by simp)

/-- Re-applying the same write sequence to a store that has already
absorbed it changes nothing: every write key is already present, and the
last write at each key re-installs the value already there. -/
theorem applyWrites_idem {V : Type} (ws : List ((String × String) × V))
    (s : List ((String × String) × V)) (h : (dictKeys s).Nodup) :
    applyWrites (applyWrites s ws) ws = applyWrites s ws := by
  have hnd1 : (dictKeys (applyWrites s ws)).Nodup :=
    nodup_dictKeys_applyWrites ws s h
  refine dict_ext _ _ ?_ ?_ ?_
  · refine dictKeys_applyWrites_of_mem ws (applyWrites s ws) ?_
    intro p hp
    rw [mem_dictKeys_applyWrites]
    exact Or.inr (List.mem_map_of_mem Prod.fst hp)
  · exact nodup_dictKeys_applyWrites ws (applyWrites s ws) hnd1
  · intro k
    rw [dictGet_applyWrites ws (applyWrites s ws) k,
      dictGet_applyWrites ws s k]
    cases hlw : lastWrite ws k with
    | some v => rfl
    | none => simp only

/-! ## Rubric scoring (the rubric save handler) -/

/-- A rubric record, mirroring the dictionary stored at
`st.session_state.rubric_scores[(sid2, task_obj.id)]`: four 1–4 levels,
the evidence notes, and the task's point value. -/
structure RubricRec where
  concept : Nat
  procedure : Nat
  reasoning : Nat
  communication : Nat
  notes : String
  task_points : Nat
  deriving DecidableEq, Repr

/-- The `st.session_state.rubric_scores` dictionary. -/
def RubricStore : Type := List ((String × String) × RubricRec)

/-- The rubric save handler: one dictionary assignment at key
`(sid2, task_obj.id)`. -/
def saveRubricHandler (store : RubricStore) (sid taskId : String)
    (rec : RubricRec) : RubricStore :=
  dictSet store (sid, taskId) rec

/-! ## Session state and the Generate button handler -/

/-- The session state the handlers act on: the roster, the current quiz
items, and the two record dictionaries. -/
structure SessionState where
  students : List (String × String)
  quiz_items : List ObjItem
  responses : RespStore
  rubric_scores : RubricStore

/-- The Generate button handler: `random.seed(int(seed))` makes the RNG
tape a function of the seed alone, then `n_items` generator calls build the
new quiz; only `quiz_items` is replaced. -/
def generateHandler (s : SessionState) (topicKeys : List String)
    (nItems : Nat) (tape : List Nat) : Option SessionState :=
  match generateItems topicKeys nItems tape with
  | none => none
  | some (items, _) => some { s with quiz_items := items }

/-! ## Roster upload handler -/

/-- Python `str.lower()` (ASCII case folding; the recognized headers are
ASCII or Korean, which `lower` leaves unchanged). -/
def pyLower (s : String) : String := String.mk (s.data.map Char.toLower)

/-- `cols_lower.get(key)` for the dictionary comprehension
`{c.lower(): c for c in df.columns}`: the *last* column whose lowercase
form equals `key` wins, as later dictionary entries overwrite earlier
ones. -/
def colsLowerGet (cols : List String) (key : String) : Option String :=
  (cols.filter (fun c => pyLower c = key)).getLast?

/-- The renaming map `df.rename(columns={id_col: "ID", name_col: "이름"})`
applied to one column name.  When `id_col == name_col` the Python dict
literal collapses to `{name_col: "이름"}`. -/
def renameMap (idCol nameCol c : String) : String :=
  if c = idCol then (if idCol = nameCol then "이름" else "ID")
  else if c = nameCol then "이름" else c

/-- The roster upload handler, at the level of column names: resolve the
identifier column (`"id"`/`"학번"` headers, else the first column) and the
name column (`"이름"`/`"name"` headers, else the second column), rename
them to `"ID"`/`"이름"`, and select those two columns.  `none` models an
uncaught exception: an `IndexError` when a positional fallback runs off
the end of the column list, or a `KeyError` when the selected columns are
missing after the rename. -/
def rosterLoad (cols : List String) : Option (String × String) :=
  match (match colsLowerGet cols "id" with
    | some c => some c
    | none => match colsLowerGet cols "학번" with
      | some c => some c
      | none => cols[0]?) with
  | none => none
  | some idCol =>
    match (match colsLowerGet cols "이름" with
      | some c => some c
      | none => match colsLowerGet cols "name" with
        | some c => some c
        | none => cols[1]?) with
    | none => none
    | some nameCol =>
      let renamed := cols.map (renameMap idCol nameCol)
      if "ID" ∈ renamed ∧ "이름" ∈ renamed then some (idCol, nameCol)
      else none

/-! ## Claim theorems -/

theorem sum_scores_of_correct (w : String → Option String) :
    ∀ (items : List ObjItem),
      (∀ item ∈ items, pyStrOpt (w ("resp_" ++ item.id)) = item.answer) →
      (items.map (fun it => (gradeRecord w it).score)).sum = sumPoints items := by
  intro items
  induction items with
  | nil => intro _; rfl
  | cons it restItems ih =>
    intro h
    simp only [List.map_cons, List.sum_cons, sumPoints] at ih ⊢
    rw [ih (fun x hx => h x (List.mem_cons_of_mem it hx))]
    have hc := h it (List.mem_cons_self it restItems)
    simp [gradeRecord, hc]

/-- **C1.** Every item produced by `gen_angle_sum_item` comes from a pair of
angles drawn from `range(20, 121, 5)` whose sum is at most 169°, and its
canonical answer is the string of 180 minus that sum; the re-sampling loop
(`while a + b >= 170`) establishes this for every output, on every RNG
tape. -/
theorem claim_angle_sum_item (tape : List Nat) (item : ObjItem)
    (rest : List Nat) (h : gen_angle_sum_item tape = some (item, rest)) :
    ∃ a b tape1, sampleAnglePair tape = some ((a, b), tape1) ∧
      a ∈ angleRange ∧ b ∈ angleRange ∧ a + b ≤ 169 ∧
      item.answer = toString (180 - (a + b)) := by
  obtain ⟨a, b, t1, hs, h1, h2, h3, h4, -, -, -⟩ :=
    gen_angle_sum_item_spec tape item rest h
  exact ⟨a, b, t1, hs, h1, h2, h3, h4⟩

/-- The item `gen_angle_sum_item` produces on the all-zero tape. -/
def asItem : ObjItem :=
  ⟨"AS-20-20", "triangle_angle_sum",
    "삼각형의 두 내각이 20°, 20°일 때, 나머지 각의 크기는?",
    ["145", "135", "150", "140"], "140", "MCQ", 2⟩

/-- Witness for C1 at the concrete tape `[0, 0, 0, 0, 0]`. -/
theorem claim_angle_sum_item_witness :
    gen_angle_sum_item [0, 0, 0, 0, 0] = some (asItem, []) ∧
    (∃ a b tape1, sampleAnglePair [0, 0, 0, 0, 0] = some ((a, b), tape1) ∧
      a ∈ angleRange ∧ b ∈ angleRange ∧ a + b ≤ 169 ∧
      asItem.answer = toString (180 - (a + b))) :=
  ⟨by decide, claim_angle_sum_item [0, 0, 0, 0, 0] asItem [] (by decide)⟩

/-- **C2.** If a student's stored response to each quiz item equals the
item's canonical answer (after `str` coercion), the Auto-grade handler
reports a total equal to the sum of all point values, and the reported
maximum equals the same sum. -/
theorem claim_all_correct_full_score (items : List ObjItem)
    (w : String → Option String) (sid : String) (store : RespStore)
    (h : ∀ item ∈ items, pyStrOpt (w ("resp_" ++ item.id)) = item.answer) :
    (autoGradeHandler items w sid store).1 = sumPoints items ∧
    (autoGradeHandler items w sid store).2.1 = sumPoints items := by
  unfold autoGradeHandler
  rw [autoGrade_decompose]
  constructor
  · show 0 + (items.map (fun it => (gradeRecord w it).score)).sum =
      sumPoints items
    rw [Nat.zero_add, sum_scores_of_correct w items h]
  · show 0 + sumPoints items = sumPoints items
    rw [Nat.zero_add]

/-- The widget state in which the only stored response answers `asItem`
correctly. -/
def asWidget : String → Option String :=
  fun k => if k = "resp_AS-20-20" then some "140" else none

/-- Witness for C2: one item, the canonical response, an empty store. -/
theorem claim_all_correct_full_score_witness :
    (∀ item ∈ [asItem], pyStrOpt (asWidget ("resp_" ++ item.id)) =
      item.answer) ∧
    (autoGradeHandler [asItem] asWidget "S001" ([] : RespStore)).1 =
      sumPoints [asItem] ∧
    (autoGradeHandler [asItem] asWidget "S001" ([] : RespStore)).2.1 =
      sumPoints [asItem] :=
  ⟨by decide,
    claim_all_correct_full_score [asItem] asWidget "S001" ([] : RespStore)
      (by decide)⟩

/-- **C5.** Whenever the Generate handler succeeds in producing a batch of
10 items over all five topics — in particular on the tape that
`random.seed(42)` produces — it yields exactly 10 items, and every MCQ
item has a non-empty choice list containing its canonical answer. -/
theorem claim_generate_ten_items (tape : List Nat) (items : List ObjItem)
    (rest : List Nat)
    (h : generateItems allTopicKeys 10 tape = some (items, rest)) :
    items.length = 10 ∧ ∀ item ∈ items, item.kind = "MCQ" →
      item.choices ≠ [] ∧ item.answer ∈ item.choices := by
  obtain ⟨hlen, hall⟩ := generateItems_spec allTopicKeys 10 tape items rest h
  exact ⟨hlen, fun item hm _ => ⟨(hall item hm).2, (hall item hm).1⟩⟩

/-- Witness for C5 on the all-zero tape of length 60: ten copies of the
angle-sum item. -/
theorem claim_generate_ten_items_witness :
    generateItems allTopicKeys 10 (List.replicate 60 0) =
      some (List.replicate 10 asItem, []) ∧
    ((List.replicate 10 asItem).length = 10 ∧
      ∀ item ∈ List.replicate 10 asItem, item.kind = "MCQ" →
        item.choices ≠ [] ∧ item.answer ∈ item.choices) :=
  ⟨by decide,
    claim_generate_ten_items (List.replicate 60 0) (List.replicate 10 asItem)
      [] (by decide)⟩

/-- **C6.** Auto-grading is idempotent: with the widget responses
unchanged, grading a second time returns the same total, the same maximum
and exactly the same response store as the first run.  (The store-keys
`Nodup` hypothesis is an invariant of every Python `dict`.) -/
theorem claim_autograde_idempotent (items : List ObjItem)
    (w : String → Option String) (sid : String) (store : RespStore)
    (hnd : (dictKeys store).Nodup) :
    autoGradeHandler items w sid (autoGradeHandler items w sid store).2.2 =
      autoGradeHandler items w sid store := by
  unfold autoGradeHandler
  rw [autoGrade_decompose w sid items 0 0 store]
  simp only
  rw [autoGrade_decompose w sid items 0 0
    (applyWrites store (writeList w sid items))]
  simp only [Prod.mk.injEq]
  exact ⟨trivial, trivial, applyWrites_idem (writeList w sid items) store hnd⟩

/-- Witness for C6: one item, one response, empty initial store. -/
theorem claim_autograde_idempotent_witness :
    ((dictKeys ([] : RespStore)).Nodup) ∧
    autoGradeHandler [asItem] asWidget "S001"
        (autoGradeHandler [asItem] asWidget "S001" ([] : RespStore)).2.2 =
      autoGradeHandler [asItem] asWidget "S001" ([] : RespStore) :=
  ⟨by decide,
    claim_autograde_idempotent [asItem] asWidget "S001" ([] : RespStore)
      (by decide)⟩

/-- **C8.** Generation is deterministic given the seed and independent of
the rest of the session state: `random.seed(int(seed))` makes the draw
tape a function of the seed alone, and two Generate runs with the same
tape, topic list and item count produce identical item sets (ids, stems,
choice orders, answers, kinds and points) regardless of any other state
(roster, responses, rubric scores, previous quiz). -/
theorem claim_generate_deterministic (s1 s2 : SessionState)
    (topicKeys : List String) (nItems : Nat) (tape : List Nat) :
    (generateHandler s1 topicKeys nItems tape).map (fun s => s.quiz_items) =
      (generateHandler s2 topicKeys nItems tape).map
        (fun s => s.quiz_items) := by
  unfold generateHandler
  cases generateItems topicKeys nItems tape with
  | none => rfl
  | some r => rfl

/-- **C9.** In the side-length mode of `gen_triangle_types_item` the three
sides are drawn without replacement, hence pairwise distinct, so the
equilateral and isosceles branches are never taken and the canonical
answer is always the scalene classification `부등변삼각형`. -/
theorem claim_sides_mode_scalene :
    (∀ tape a b c rest, sampleSidesSorted tape = some ((a, b, c), rest) →
        a ≠ b ∧ a ≠ c ∧ b ≠ c) ∧
    (∀ km tape item rest, km % 2 = 0 →
        gen_triangle_types_item (km :: tape) = some (item, rest) →
        item.answer = "부등변삼각형") := by
  constructor
  · intro tape a b c rest h
    obtain ⟨h1, h2, -⟩ := sampleSidesSorted_spec tape a b c rest h
    exact ⟨by omega, by omega, by omega⟩
  · intro km tape item rest hkm h
    exact gen_triangle_types_sides_answer km tape item rest hkm h

/-- The item the triangle-types generator produces on the all-zero tape
(sides mode, sample `3, 4, 5`). -/
def ttItem : ObjItem :=
  ⟨"TT-1000", "triangle_types", "세 변의 길이가 3, 4, 5인 삼각형의 분류는?",
    ["이등변삼각형", "직각삼각형", "부등변삼각형", "정삼각형"],
    "부등변삼각형", "MCQ", 2⟩

/-- Witness for C9 at the all-zero tape. -/
theorem claim_sides_mode_scalene_witness :
    (sampleSidesSorted [0, 0, 0] = some ((3, 4, 5), []) ∧
      (3 ≠ 4 ∧ 3 ≠ 5 ∧ 4 ≠ 5)) ∧
    (0 % 2 = 0 ∧
      gen_triangle_types_item [0, 0, 0, 0, 0, 0, 0, 0] = some (ttItem, []) ∧
      ttItem.answer = "부등변삼각형") :=
  ⟨⟨by decide, claim_sides_mode_scalene.1 [0, 0, 0] 3 4 5 [] (by decide)⟩,
    ⟨rfl, by decide,
      claim_sides_mode_scalene.2 0 [0, 0, 0, 0, 0, 0, 0] ttItem [] rfl
        (by decide)⟩⟩

/-- **C10.** Every item the similarity generator produces carries the
constant canonical answer `가능(AA)`, whatever the two sampled angles. -/
theorem claim_similarity_constant_answer (tape : List Nat) (item : ObjItem)
    (rest : List Nat) (h : gen_similarity_item tape = some (item, rest)) :
    item.answer = "가능(AA)" :=
  (gen_similarity_item_spec tape item rest h).1

/-- The item the similarity generator produces on the all-zero tape. -/
def simItem : ObjItem :=
  ⟨"SIM-30-40", "similarity_basic",
    "두 삼각형의 두 각이 각각 30°, 40°로 같다. 닮음 판단이 가능한가?",
    ["불가능", "가능(SSS)", "가능(SAS)", "가능(AA)"], "가능(AA)", "MCQ", 2⟩

/-- Witness for C10 at the concrete tape `[0, 0, 0, 0, 0]`. -/
theorem claim_similarity_constant_answer_witness :
    gen_similarity_item [0, 0, 0, 0, 0] = some (simItem, []) ∧
    simItem.answer = "가능(AA)" :=
  ⟨by decide,
    claim_similarity_constant_answer [0, 0, 0, 0, 0] simItem [] (by decide)⟩

/-- **C3, counterexample.**  The claim asserts that some random draw gives
an item with the "two angles and a non-included side" stem (`asaStem`) the
canonical answer `"ASA"`.  In the code that branch hard-codes
`ans = "AAS"`, so no draw can: the claim's existential is false. -/
theorem claim_congruence_asa_counterexample :
    ¬ ∃ tape item rest, gen_congruence_item tape = some (item, rest) ∧
      item.stem = asaStem ∧ item.answer = "ASA" := by
  rintro ⟨tape, item, rest, h, hstem, hans⟩
  have haas := (gen_congruence_item_spec tape item rest h).2.2.1 hstem
  have : ("ASA" : String) = "AAS" := hans.symm.trans haas
  exact absurd this (by decide)

/-- **C3, amended.**  For the "two angles and a non-included side" stem the
canonical answer is always `"AAS"`; only the broader "two angles and one
side" stem (`aasStem`) randomly carries either `"ASA"` or `"AAS"`, and
both values actually occur. -/
theorem claim_congruence_asa_amended :
    (∀ tape item rest, gen_congruence_item tape = some (item, rest) →
      item.stem = asaStem → item.answer = "AAS") ∧
    (∃ tape item rest, gen_congruence_item tape = some (item, rest) ∧
      item.stem = aasStem ∧ item.answer = "ASA") ∧
    (∃ tape item rest, gen_congruence_item tape = some (item, rest) ∧
      item.stem = aasStem ∧ item.answer = "AAS") := by
  refine ⟨fun tape item rest h hstem =>
    (gen_congruence_item_spec tape item rest h).2.2.1 hstem, ?_, ?_⟩
  · exact ⟨[3, 0, 0, 0, 0, 0, 0],
      ⟨"CG-1000", "congruence", aasStem,
        ["SAS", "ASA", "AAS", "판단 불가", "SSS"], "ASA", "MCQ", 2⟩, [],
      by decide, rfl, rfl⟩
  · exact ⟨[3, 1, 0, 0, 0, 0, 0],
      ⟨"CG-1000", "congruence", aasStem,
        ["SAS", "ASA", "AAS", "판단 불가", "SSS"], "AAS", "MCQ", 2⟩, [],
      by decide, rfl, rfl⟩

/-- The item the congruence generator produces on the tape `[2, 0, …]`:
the non-included-side pattern. -/
def cgItemNonIncluded : ObjItem :=
  ⟨"CG-1000", "congruence", asaStem,
    ["SAS", "ASA", "AAS", "판단 불가", "SSS"], "AAS", "MCQ", 2⟩

/-- Witness for the amended C3 at the concrete tape `[2, 0, 0, 0, 0, 0]`. -/
theorem claim_congruence_asa_amended_witness :
    gen_congruence_item [2, 0, 0, 0, 0, 0] = some (cgItemNonIncluded, []) ∧
    cgItemNonIncluded.stem = asaStem ∧ cgItemNonIncluded.answer = "AAS" :=
  ⟨by decide, rfl,
    claim_congruence_asa_amended.1 [2, 0, 0, 0, 0, 0] cgItemNonIncluded []
      (by decide) rfl⟩

theorem colsLowerGet_eq_none (cols : List String) (key : String)
    (h : ∀ c ∈ cols, pyLower c ≠ key) : colsLowerGet cols key = none := by
  unfold colsLowerGet
  rw [List.filter_eq_nil_iff.mpr (fun c hc => by simpa using h c hc)]
  rfl

/-- **C4, counterexample.**  The claim asserts that loading any uploaded
roster table never raises an exception.  A one-column table whose header
is not a recognized name column makes the positional fallback
`list(df.columns)[1]` raise an `IndexError`; in the embedding the loader
returns `none`. -/
theorem claim_roster_counterexample : rosterLoad ["점수"] = none := by decide

/-- **C4, amended.**  When all recognized identifier/name headers are
absent, roster loading falls back to the first two columns positionally
and succeeds for any table with at least two (distinct) columns; but a
one-column table without a recognized name header is not handled — the
positional fallback for the name column raises an `IndexError`
(modelled as `none`). -/
theorem claim_roster_fallback_amended :
    (∀ (c0 c1 : String) (restCols : List String), c0 ≠ c1 →
      (∀ c ∈ c0 :: c1 :: restCols,
        pyLower c ∉ (["id", "학번", "이름", "name"] : List String)) →
      rosterLoad (c0 :: c1 :: restCols) = some (c0, c1)) ∧
    (∀ c : String, pyLower c ≠ "이름" → pyLower c ≠ "name" →
      rosterLoad [c] = none) := by
  constructor
  · intro c0 c1 restCols hne hhead
    have hid : colsLowerGet (c0 :: c1 :: restCols) "id" = none :=
      colsLowerGet_eq_none _ _ (fun c hc => by
        have := hhead c hc; simp at this; exact this.1)
    have hhak : colsLowerGet (c0 :: c1 :: restCols) "학번" = none :=
      colsLowerGet_eq_none _ _ (fun c hc => by
        have := hhead c hc; simp at this; exact this.2.1)
    have hirm : colsLowerGet (c0 :: c1 :: restCols) "이름" = none :=
      colsLowerGet_eq_none _ _ (fun c hc => by
        have := hhead c hc; simp at this; exact this.2.2.1)
    have hnm : colsLowerGet (c0 :: c1 :: restCols) "name" = none :=
      colsLowerGet_eq_none _ _ (fun c hc => by
        have := hhead c hc; simp at this; exact this.2.2.2)
    unfold rosterLoad
    rw [hid, hhak, hirm, hnm]
    simp only [List.getElem?_cons_zero, List.getElem?_cons_succ]
    have hmemID : "ID" ∈ (c0 :: c1 :: restCols).map (renameMap c0 c1) := by
      refine List.mem_cons.mpr (Or.inl ?_)
      simp [renameMap, hne]
    have hmemName : "이름" ∈ (c0 :: c1 :: restCols).map (renameMap c0 c1) := by
      have hne' : ¬ c1 = c0 := fun hh => hne hh.symm
      refine List.mem_cons.mpr (Or.inr (List.mem_cons.mpr (Or.inl ?_)))
      simp [renameMap, hne']
    simp only [if_pos (And.intro hmemID hmemName)]
  · intro c h1 h2
    have hirm : colsLowerGet [c] "이름" = none :=
      colsLowerGet_eq_none _ _ (by simpa using h1)
    have hnm : colsLowerGet [c] "name" = none :=
      colsLowerGet_eq_none _ _ (by simpa using h2)
    unfold rosterLoad
    rw [hirm, hnm]
    simp only [List.getElem?_cons_succ, List.getElem?_nil]
    cases colsLowerGet [c] "id" with
    | some c' => rfl
    | none =>
      cases colsLowerGet [c] "학번" with
      | some c' => rfl
      | none => rfl

/-- Witness for the amended C4: a header-less two-column table loads by
positional fallback, and a one-column table fails. -/
theorem claim_roster_fallback_amended_witness :
    (("학생" : String) ≠ "성명" ∧
      (∀ c ∈ (["학생", "성명"] : List String),
        pyLower c ∉ (["id", "학번", "이름", "name"] : List String)) ∧
      rosterLoad ["학생", "성명"] = some ("학생", "성명")) ∧
    (pyLower "비고" ≠ "이름" ∧ pyLower "비고" ≠ "name" ∧
      rosterLoad ["비고"] = none) :=
  ⟨⟨by decide, by decide,
      claim_roster_fallback_amended.1 "학생" "성명" [] (by decide) (by decide)⟩,
    ⟨by decide, by decide,
      claim_roster_fallback_amended.2 "비고" (by decide) (by decide)⟩⟩

/-- **C7.** Rubric save is overwrite-idempotent with last-write-wins
semantics: saving the same record twice at a key equals a single save;
after a save the key occurs exactly once in the store; saving a different
record at the same key replaces the earlier one (the key's lookup yields
the later record, and the double save equals the single later save). -/
theorem claim_rubric_save_idempotent (store : RubricStore)
    (sid taskId : String) (r r2 : RubricRec)
    (hnd : (dictKeys store).Nodup) :
    saveRubricHandler (saveRubricHandler store sid taskId r) sid taskId r =
        saveRubricHandler store sid taskId r ∧
      countKey (saveRubricHandler store sid taskId r) (sid, taskId) = 1 ∧
      saveRubricHandler (saveRubricHandler store sid taskId r) sid taskId r2 =
        saveRubricHandler store sid taskId r2 ∧
      dictGet (saveRubricHandler (saveRubricHandler store sid taskId r)
        sid taskId r2) (sid, taskId) = some r2 := by
  unfold saveRubricHandler
  refine ⟨dictSet_dictSet_self store (sid, taskId) r r,
    count_dictKeys_dictSet store (sid, taskId) r
      (List.nodup_iff_count_le_one.mp hnd (sid, taskId)),
    dictSet_dictSet_self store (sid, taskId) r r2,
    dictGet_dictSet_self _ (sid, taskId) r2⟩

/-- Witness for C7: empty store, the rubric of the end-to-end scenario
(levels 3, 4, 2, 3 on the 8-point task `PT-1`). -/
theorem claim_rubric_save_idempotent_witness :
    ((dictKeys ([] : RubricStore)).Nodup) ∧
    (saveRubricHandler (saveRubricHandler ([] : RubricStore) "S001" "PT-1"
          ⟨3, 4, 2, 3, "근거 메모", 8⟩) "S001" "PT-1" ⟨3, 4, 2, 3, "근거 메모", 8⟩ =
        saveRubricHandler ([] : RubricStore) "S001" "PT-1"
          ⟨3, 4, 2, 3, "근거 메모", 8⟩ ∧
      countKey (saveRubricHandler ([] : RubricStore) "S001" "PT-1"
          ⟨3, 4, 2, 3, "근거 메모", 8⟩) ("S001", "PT-1") = 1 ∧
      saveRubricHandler (saveRubricHandler ([] : RubricStore) "S001" "PT-1"
          ⟨3, 4, 2, 3, "근거 메모", 8⟩) "S001" "PT-1" ⟨4, 4, 4, 4, "수정", 8⟩ =
        saveRubricHandler ([] : RubricStore) "S001" "PT-1"
          ⟨4, 4, 4, 4, "수정", 8⟩ ∧
      dictGet (saveRubricHandler (saveRubricHandler ([] : RubricStore)
          "S001" "PT-1" ⟨3, 4, 2, 3, "근거 메모", 8⟩) "S001" "PT-1"
          ⟨4, 4, 4, 4, "수정", 8⟩) ("S001", "PT-1") =
        some ⟨4, 4, 4, 4, "수정", 8⟩) :=
  ⟨by decide,
    claim_rubric_save_idempotent ([] : RubricStore) "S001" "PT-1"
      ⟨3, 4, 2, 3, "근거 메모", 8⟩ ⟨4, 4, 4, 4, "수정", 8⟩ (by decide)⟩
